import Mathlib

/-!
# Verification of the Market Dataset Pipeline (`src/app.py`, `load_data`)

Shallow embedding of the data loading / cleaning / classification pipeline of
the trade-statistics dashboard.  The pipeline (function `load_data` in
`src/app.py`):

1. renames four raw columns to `country`, `export_value`, `growth`, `world_rank`
   (accessing a column that is absent raises a `KeyError`, modelled here as a
   `SchemaError`);
2. drops every row whose `country` equals the world-aggregate sentinel
   `"World"`;
3. coerces `export_value`, `growth`, `world_rank` to numeric with
   `pd.to_numeric(errors="coerce")`: a cell that does not parse as a number
   becomes the missing value `NaN` (modelled as `Option ℚ`, `none` = missing);
4. computes `median_value = df["export_value"].median()` — the pandas median of
   the non-missing values (`NaN` when there are none);
5. assigns `strategy`: default `"Watch"`, then the three overwrite rules
   `Invest` / `Nurture` / `Defend` guarded by NaN-aware comparisons (any
   comparison involving a missing value is false, as for IEEE `NaN`).

Numeric cells are embedded as `RawCell`: `num q` is a cell whose text parses as
the number `q`, `text s` a cell (such as `"N/A"`) that does not parse.  Missing
columns are embedded as presence flags on the raw table.
-/

namespace TradeDash

/-- A raw cell of a numeric column: `num q` abstracts any source text that
`pd.to_numeric` parses as the number `q`; `text s` abstracts a source text that
fails to parse (e.g. `"N/A"`). -/
inductive RawCell where
  | num : ℚ → RawCell
  | text : String → RawCell
deriving DecidableEq, Repr

/-- `pd.to_numeric(errors="coerce")` on one cell: a parsable cell keeps its
numeric value, an unparsable cell becomes missing (`NaN` ↦ `none`). -/
def to_numeric : RawCell → Option ℚ
  | .num q => some q
  | .text _ => none

/-- One raw input row after the rename of step 1 (header fields in canonical
order `country`, `export_value`, `growth`, `world_rank`). -/
structure RawRow where
  country : String
  export_value : RawCell
  growth : RawCell
  world_rank : RawCell
deriving DecidableEq, Repr

/-- The raw tab-separated table: one flag per required canonical column saying
whether the corresponding source column is present in the header, plus the data
rows.  `df[col]` on an absent column raises `KeyError` in the source. -/
structure RawTable where
  hasCountry : Bool
  hasExportValue : Bool
  hasGrowth : Bool
  hasWorldRank : Bool
  rows : List RawRow
deriving DecidableEq, Repr

/-- One cleaned, classified output row (a `MarketRecord` of the spec). -/
structure MarketRecord where
  country : String
  export_value : Option ℚ
  growth : Option ℚ
  world_rank : Option ℚ
  strategy : String
deriving DecidableEq, Repr

/-- The cleaned, labelled record set returned by `load_data`. -/
structure Dataset where
  rows : List MarketRecord
deriving DecidableEq, Repr

/-- The fatal load failure: a required column is absent (`KeyError` in the
source, `SchemaError` in the design). -/
inductive LoadError where
  | SchemaError : String → LoadError
deriving DecidableEq, Repr

/-- NaN-aware `>=`: pandas evaluates `x >= y` to `False` whenever either side
is `NaN` (missing). -/
def nanGe (a b : Option ℚ) : Bool :=
  match a, b with
  | some x, some y => decide (y ≤ x)
  | _, _ => false

/-- NaN-aware `<`: pandas evaluates `x < y` to `False` whenever either side is
`NaN` (missing). -/
def nanLt (a b : Option ℚ) : Bool :=
  match a, b with
  | some x, some y => decide (x < y)
  | _, _ => false

/-- Pandas `Series.median()` over the non-missing values: sort ascending; odd
count takes the middle element, even count the mean of the two middle elements;
an empty series has median `NaN` (`none`). -/
def median (l : List ℚ) : Option ℚ :=
  if l.isEmpty then none
  else
    let s := l.insertionSort (· ≤ ·)
    let n := s.length
    if n % 2 = 1 then some (s.getD (n / 2) 0)
    else some ((s.getD (n / 2 - 1) 0 + s.getD (n / 2) 0) / 2)

/-- Step 2 of `load_data`: `df = df[df["country"] != "World"]`. -/
def dropWorld (rows : List RawRow) : List RawRow :=
  rows.filter (fun r => !(r.country == "World"))

/-- The `export_value` column after coercion, with missing entries skipped (the
series over which pandas computes the median and the sum). -/
def exportValues (rows : List RawRow) : List ℚ :=
  rows.filterMap (fun r => to_numeric r.export_value)

/-- The sequential overwrite classification of lines 47–50 of `src/app.py`:
start from `"Watch"`, then in source order apply the `Invest`, `Nurture` and
`Defend` overwrites, each guarded by NaN-aware comparisons against the median
`m` of the export column. -/
def classify (m ev g : Option ℚ) : String :=
  let s0 := "Watch"
  let s1 := if nanGe ev m && nanGe g (some 0) then "Invest" else s0
  let s2 := if nanLt ev m && nanGe g (some 0) then "Nurture" else s1
  let s3 := if nanGe ev m && nanLt g (some 0) then "Defend" else s2
  s3

/-- The output record built from one kept raw row, given the dataset-wide
median `m` of the coerced export column. -/
def recordOf (m : Option ℚ) (r : RawRow) : MarketRecord :=
  { country := r.country
    export_value := to_numeric r.export_value
    growth := to_numeric r.growth
    world_rank := to_numeric r.world_rank
    strategy := classify m (to_numeric r.export_value) (to_numeric r.growth) }

/-- Steps 2–5 of `load_data` on the data rows: drop the world-aggregate rows,
coerce, take the median of the remaining coerced export values, classify every
remaining row. -/
def load_rows (rows : List RawRow) : List MarketRecord :=
  let kept := dropWorld rows
  let m := median (exportValues kept)
  kept.map (recordOf m)

/-- All four required columns are present in the header. -/
def hasAllColumns (t : RawTable) : Bool :=
  t.hasCountry && t.hasExportValue && t.hasGrowth && t.hasWorldRank

/-- The whole `load_data`: accessing any of the four canonical columns when it
is absent raises (`KeyError` / `SchemaError`) before anything is returned;
otherwise the cleaned and classified `Dataset` is returned. -/
def load (t : RawTable) : Except LoadError Dataset :=
  if hasAllColumns t then Except.ok ⟨load_rows t.rows⟩
  else Except.error (.SchemaError "required column absent")

/-- `df["export_value"].sum()` on the loaded frame: pandas sums skipping the
missing entries. -/
def total_exports (d : Dataset) : ℚ :=
  (d.rows.filterMap (fun r => r.export_value)).sum

/-- The four-row table of spec §8: export values 10, 20, 30, 40 and growths
1, −1, 2, −2. -/
def demoRows : List RawRow :=
  [ ⟨"A", .num 10, .num 1, .num 1⟩
  , ⟨"B", .num 20, .num (-1), .num 2⟩
  , ⟨"C", .num 30, .num 2, .num 3⟩
  , ⟨"D", .num 40, .num (-2), .num 4⟩ ]

/-- The table wrapping `demoRows` with every required column present. -/
def demoTable : RawTable :=
  ⟨true, true, true, true, demoRows⟩

/-- `demoRows` with every `world_rank` cell replaced (one even unparsable), for
the noninterference witness. -/
def demoRowsRankScrambled : List RawRow :=
  [ ⟨"A", .num 10, .num 1, .num 99⟩
  , ⟨"B", .num 20, .num (-1), .text "N/A"⟩
  , ⟨"C", .num 30, .num 2, .num 7⟩
  , ⟨"D", .num 40, .num (-2), .num 0⟩ ]

/-- A single data row whose `export_value` cell is the unparsable `"N/A"`. -/
def naRow : RawRow :=
  ⟨"E", .text "N/A", .num 5, .num 6⟩

/-- A three-row table (odd count, median 20) for concrete instantiations. -/
def rows3 : List RawRow :=
  [ ⟨"A", .num 10, .num 1, .num 1⟩
  , ⟨"B", .num 30, .num (-1), .num 2⟩
  , ⟨"C", .num 20, .num 5, .num 3⟩ ]

/-- The world-aggregate row of the raw input. -/
def worldRow : RawRow :=
  ⟨"World", .num 1000, .num 3, .num 0⟩

/-- Two raw rows that agree on everything the classification may read:
`country`, the `export_value` cell and the `growth` cell (the `world_rank`
cells are unconstrained). -/
def AgreeExceptRank (a b : RawRow) : Prop :=
  a.country = b.country ∧ a.export_value = b.export_value ∧ a.growth = b.growth

section Lemmas

/-- Unfolding of membership in the loaded record list. -/
theorem mem_load_rows {rows : List RawRow} {rec : MarketRecord} :
    rec ∈ load_rows rows ↔
      ∃ r ∈ dropWorld rows,
        rec = recordOf (median (exportValues (dropWorld rows))) r := by
  simp only [load_rows, List.mem_map]
  constructor
  · rintro ⟨r, hr, rfl⟩
    exact ⟨r, hr, rfl⟩
  · rintro ⟨r, hr, rfl⟩
    exact ⟨r, hr, rfl⟩

/-- On fully non-missing arguments, the sequential overwrites of
lines 47–50 compute exactly the quadrant rule. -/
theorem classify_some (m v g : ℚ) :
    classify (some m) (some v) (some g) =
      if 0 ≤ g then (if m ≤ v then "Invest" else "Nurture")
      else (if m ≤ v then "Defend" else "Watch") := by
  rcases le_or_lt 0 g with hg | hg <;> rcases le_or_lt m v with hv | hv <;>
    simp [classify, nanGe, nanLt, hg, hv, not_le.mpr, not_lt.mpr, le_of_lt]

/-- A missing `export_value` falls through every overwrite. -/
theorem classify_ev_none (m g : Option ℚ) :
    classify m none g = "Watch" := by
  cases m <;> simp [classify, nanGe, nanLt]

/-- A missing `growth` falls through every overwrite. -/
theorem classify_g_none (m ev : Option ℚ) :
    classify m ev none = "Watch" := by
  cases ev <;> cases m <;> simp [classify, nanGe, nanLt]

/-- A missing median (empty non-missing export column) falls through every
overwrite. -/
theorem classify_m_none (ev g : Option ℚ) :
    classify none ev g = "Watch" := by
  cases ev <;> simp [classify, nanGe, nanLt]

/-- The classification only ever produces one of the four labels. -/
theorem classify_mem_labels (m ev g : Option ℚ) :
    classify m ev g = "Invest" ∨ classify m ev g = "Nurture" ∨
      classify m ev g = "Defend" ∨ classify m ev g = "Watch" := by
  unfold classify
  by_cases h1 : (nanGe ev m && nanGe g (some 0)) = true <;>
    by_cases h2 : (nanLt ev m && nanGe g (some 0)) = true <;>
      by_cases h3 : (nanGe ev m && nanLt g (some 0)) = true <;>
        simp [h1, h2, h3]

/-- The sorted list underlying `median` depends only on the multiset of
values. -/
theorem insertionSort_congr_perm {l l' : List ℚ} (h : l.Perm l') :
    l.insertionSort (· ≤ ·) = l'.insertionSort (· ≤ ·) := by
  haveI : IsAntisymm ℚ (fun x1 x2 : ℚ => x1 ≤ x2) := ⟨fun _ _ h1 h2 => le_antisymm h1 h2⟩
  exact List.eq_of_perm_of_sorted
    ((List.perm_insertionSort _ l).trans (h.trans (List.perm_insertionSort _ l').symm))
    (List.sorted_insertionSort _ l) (List.sorted_insertionSort _ l')

/-- The pandas median is invariant under reordering of the series. -/
theorem median_congr_perm {l l' : List ℚ} (h : l.Perm l') :
    median l = median l' := by
  have hs : l.insertionSort (· ≤ ·) = l'.insertionSort (· ≤ ·) :=
    insertionSort_congr_perm h
  have hl : l.isEmpty = l'.isEmpty := by
    have := h.length_eq
    cases l <;> cases l' <;> simp_all
  unfold median
  rw [hs, hl]

/-- The sequential overwrites written as one nested conditional on the two
quadrant predicates. -/
theorem classify_quadrant (m v g : ℚ) :
    classify (some m) (some v) (some g) =
      if v ≥ m ∧ g ≥ 0 then "Invest"
      else if v < m ∧ g ≥ 0 then "Nurture"
      else if v ≥ m ∧ g < 0 then "Defend"
      else "Watch" := by
  rcases le_or_lt 0 g with hg | hg <;> rcases le_or_lt m v with hv | hv <;>
    simp [classify_some, hg, hv, not_le.mpr, not_lt.mpr, le_of_lt, ge_iff_le]

/-- A non-empty series has a (non-missing) median. -/
theorem median_isSome {l : List ℚ} (h : l ≠ []) : ∃ m, median l = some m := by
  unfold median
  have : l.isEmpty = false := by simpa using h
  rw [this]
  simp only [Bool.false_eq_true, if_false]
  split <;> exact ⟨_, rfl⟩

/-- Dropping the aggregate rows twice is the same as dropping them once. -/
theorem dropWorld_idem (rows : List RawRow) :
    dropWorld (dropWorld rows) = dropWorld rows := by
  simp [dropWorld, List.filter_filter]

/-- The pandas sum of the loaded export column is the sum of the non-missing
coerced export values of the kept raw rows. -/
theorem total_exports_load (rows : List RawRow) :
    total_exports ⟨load_rows rows⟩ = (exportValues (dropWorld rows)).sum := by
  simp only [total_exports, load_rows, List.filterMap_map]
  rfl

/-- Row agreement off `world_rank` is preserved by the aggregate filter. -/
theorem dropWorld_forall₂ {a b : List RawRow}
    (h : List.Forall₂ AgreeExceptRank a b) :
    List.Forall₂ AgreeExceptRank (dropWorld a) (dropWorld b) := by
  induction h with
  | nil => exact List.Forall₂.nil
  | @cons x y l₁ l₂ hab htail ih =>
    by_cases hx : x.country = "World"
    · have hy : y.country = "World" := hab.1 ▸ hx
      simpa [dropWorld, List.filter_cons, hx, hy] using ih
    · have hy : ¬y.country = "World" := hab.1 ▸ hx
      simpa [dropWorld, List.filter_cons, hx, hy] using List.Forall₂.cons hab ih

/-- Rows agreeing off `world_rank` contribute the same export series. -/
theorem exportValues_forall₂ {a b : List RawRow}
    (h : List.Forall₂ AgreeExceptRank a b) :
    exportValues a = exportValues b := by
  induction h with
  | nil => rfl
  | @cons x y l₁ l₂ hab htail ih =>
    simp only [exportValues, List.filterMap_cons] at ih ⊢
    rw [hab.2.1]
    cases to_numeric y.export_value <;> simp [ih]

/-- The strategy column only reads `country`-filtered `export_value` and
`growth`; rows agreeing off `world_rank` classify identically. -/
theorem map_strategy_forall₂ (m : Option ℚ) {a b : List RawRow}
    (h : List.Forall₂ AgreeExceptRank a b) :
    a.map (fun r => (recordOf m r).strategy)
      = b.map (fun r => (recordOf m r).strategy) := by
  induction h with
  | nil => rfl
  | @cons x y l₁ l₂ hab htail ih =>
    simp only [List.map_cons, ih]
    congr 1
    simp only [recordOf]
    rw [hab.2.1, hab.2.2]

end Lemmas

section Claims

/-- C2: for every row of the loaded Dataset, if `export_value` is missing or
`growth` is missing, then that row's strategy is `Watch`. -/
theorem missing_value_strategy_watch (rows : List RawRow) (rec : MarketRecord)
    (hmem : rec ∈ load_rows rows)
    (hmiss : rec.export_value = none ∨ rec.growth = none) :
    rec.strategy = "Watch" := by
  rcases mem_load_rows.mp hmem with ⟨r, hr, rfl⟩
  rcases hmiss with h | h
  · simp only [recordOf] at h ⊢
    rw [h, classify_ev_none]
  · simp only [recordOf] at h ⊢
    rw [h, classify_g_none]

/-- Witness for `missing_value_strategy_watch`: a single-row table whose
`export_value` cell is `"N/A"` loads to a `Watch` record. -/
theorem missing_value_strategy_watch_witness :
    (⟨"E", none, some 5, some 6, "Watch"⟩ : MarketRecord).strategy = "Watch" :=
  missing_value_strategy_watch [naRow] ⟨"E", none, some 5, some 6, "Watch"⟩
    (by decide) (Or.inl rfl)

/-- C3: the strategy of every loaded row is exactly one of the four labels
`Invest`, `Nurture`, `Defend`, `Watch`; it is a total (never missing) string
field of the record. -/
theorem strategy_label_total (rows : List RawRow) (rec : MarketRecord)
    (hmem : rec ∈ load_rows rows) :
    rec.strategy = "Invest" ∨ rec.strategy = "Nurture" ∨
      rec.strategy = "Defend" ∨ rec.strategy = "Watch" := by
  rcases mem_load_rows.mp hmem with ⟨r, hr, rfl⟩
  exact classify_mem_labels _ _ _

/-- Witness for `strategy_label_total` at the `"N/A"` single-row table. -/
theorem strategy_label_total_witness :
    (⟨"E", none, some 5, some 6, "Watch"⟩ : MarketRecord).strategy = "Invest" ∨
      (⟨"E", none, some 5, some 6, "Watch"⟩ : MarketRecord).strategy = "Nurture" ∨
      (⟨"E", none, some 5, some 6, "Watch"⟩ : MarketRecord).strategy = "Defend" ∨
      (⟨"E", none, some 5, some 6, "Watch"⟩ : MarketRecord).strategy = "Watch" :=
  strategy_label_total [naRow] ⟨"E", none, some 5, some 6, "Watch"⟩ (by decide)

/-- C4: if any of the four required columns is absent, `load` fails with a
`SchemaError` and returns no `Dataset`. -/
theorem missing_column_schema_error (t : RawTable) (h : hasAllColumns t = false) :
    (∃ msg, load t = Except.error (LoadError.SchemaError msg))
    ∧ ∀ d : Dataset, load t ≠ Except.ok d := by
  refine ⟨⟨"required column absent", ?_⟩, ?_⟩
  · simp [load, h]
  · intro d hd
    simp [load, h] at hd

/-- Witness for `missing_column_schema_error`: the demo table without its
growth-indicator column. -/
theorem missing_column_schema_error_witness :
    (∃ msg, load ⟨true, true, false, true, demoRows⟩
        = Except.error (LoadError.SchemaError msg))
    ∧ ∀ d : Dataset, load ⟨true, true, false, true, demoRows⟩ ≠ Except.ok d :=
  missing_column_schema_error ⟨true, true, false, true, demoRows⟩ rfl

/-- C6: no loaded row carries the world-aggregate sentinel country, and the
whole pipeline (median included) only sees the rows left after the sentinel
rows are dropped. -/
theorem world_aggregate_excluded (rows : List RawRow) :
    (∀ rec ∈ load_rows rows, rec.country ≠ "World")
    ∧ load_rows rows = load_rows (dropWorld rows) := by
  constructor
  · intro rec hmem
    rcases mem_load_rows.mp hmem with ⟨r, hr, rfl⟩
    have hne : r.country ≠ "World" := by
      have hmem' := hr
      simp only [dropWorld, List.mem_filter, Bool.not_eq_true', beq_eq_false_iff_ne,
        ne_eq] at hmem'
      exact hmem'.2
    simpa [recordOf] using hne
  · simp only [load_rows]
    rw [dropWorld_idem]

/-- Witness for `world_aggregate_excluded`: a table containing the world
aggregate still loads to sentinel-free records. -/
theorem world_aggregate_excluded_witness :
    (⟨"E", none, some 5, some 6, "Watch"⟩ : MarketRecord).country ≠ "World" :=
  (world_aggregate_excluded [worldRow, naRow]).1
    ⟨"E", none, some 5, some 6, "Watch"⟩ (by decide)

/-- C8: `load` is a deterministic, idempotent, side-effect-free function of
the input table: two successful calls on the same input return row-for-row
identical Datasets. -/
theorem load_deterministic (t : RawTable) (d₁ d₂ : Dataset)
    (h₁ : load t = Except.ok d₁) (h₂ : load t = Except.ok d₂) :
    d₁ = d₂ ∧ d₁.rows = d₂.rows := by
  rw [h₁] at h₂
  injection h₂ with h
  subst h
  exact ⟨rfl, rfl⟩

/-- Witness for `load_deterministic` at the demo table. -/
theorem load_deterministic_witness :
    (⟨load_rows demoRows⟩ : Dataset) = ⟨load_rows demoRows⟩ ∧
      (⟨load_rows demoRows⟩ : Dataset).rows = (⟨load_rows demoRows⟩ : Dataset).rows :=
  load_deterministic demoTable ⟨load_rows demoRows⟩ ⟨load_rows demoRows⟩ rfl rfl

/-- C1: every loaded row with non-missing `export_value` and `growth` is
labelled by the quadrant rule against the median of the non-missing export
values; the result is invariant under row reordering; and the four quadrant
outcomes are mutually exclusive. -/
theorem strategy_quadrant_rule :
    (∀ (rows : List RawRow), ∀ rec ∈ load_rows rows, ∀ v g : ℚ,
        rec.export_value = some v → rec.growth = some g →
        ∃ m : ℚ, median (exportValues (dropWorld rows)) = some m ∧
          rec.strategy =
            if v ≥ m ∧ g ≥ 0 then "Invest"
            else if v < m ∧ g ≥ 0 then "Nurture"
            else if v ≥ m ∧ g < 0 then "Defend"
            else "Watch")
    ∧ (∀ rows rows' : List RawRow, rows.Perm rows' →
        median (exportValues (dropWorld rows))
            = median (exportValues (dropWorld rows'))
          ∧ (load_rows rows).Perm (load_rows rows'))
    ∧ (∀ m v g : ℚ,
        (classify (some m) (some v) (some g) = "Invest" ↔ v ≥ m ∧ g ≥ 0) ∧
        (classify (some m) (some v) (some g) = "Nurture" ↔ v < m ∧ g ≥ 0) ∧
        (classify (some m) (some v) (some g) = "Defend" ↔ v ≥ m ∧ g < 0) ∧
        (classify (some m) (some v) (some g) = "Watch" ↔ v < m ∧ g < 0)) := by
  refine ⟨?_, ?_, ?_⟩
  · intro rows rec hmem v g hv hg
    rcases mem_load_rows.mp hmem with ⟨r, hr, rfl⟩
    simp only [recordOf] at hv hg ⊢
    have hvmem : v ∈ exportValues (dropWorld rows) := by
      simp only [exportValues, List.mem_filterMap]
      exact ⟨r, hr, hv⟩
    have hne : exportValues (dropWorld rows) ≠ [] := by
      intro h0
      rw [h0] at hvmem
      exact absurd hvmem (List.not_mem_nil v)
    obtain ⟨m, hm⟩ := median_isSome hne
    refine ⟨m, hm, ?_⟩
    rw [hv, hg, hm]
    exact classify_quadrant m v g
  · intro rows rows' hperm
    have hkept : (dropWorld rows).Perm (dropWorld rows') := hperm.filter _
    have hev : (exportValues (dropWorld rows)).Perm
        (exportValues (dropWorld rows')) := hkept.filterMap _
    have hmed := median_congr_perm hev
    refine ⟨hmed, ?_⟩
    simp only [load_rows]
    rw [hmed]
    exact hkept.map _
  · intro m v g
    rcases le_or_lt m v with hv | hv <;> rcases le_or_lt 0 g with hg | hg
    · have h1 : ¬v < m := not_lt.mpr hv
      have h2 : ¬g < 0 := not_lt.mpr hg
      simp [classify_quadrant, hv, hg, h1, h2]
    · have h1 : ¬v < m := not_lt.mpr hv
      have h2 : ¬(0:ℚ) ≤ g := not_le.mpr hg
      simp [classify_quadrant, hv, hg, h1, h2]
    · have h1 : ¬m ≤ v := not_le.mpr hv
      have h2 : ¬g < 0 := not_lt.mpr hg
      simp [classify_quadrant, hv, hg, h1, h2]
    · have h1 : ¬m ≤ v := not_le.mpr hv
      have h2 : ¬(0:ℚ) ≤ g := not_le.mpr hg
      simp [classify_quadrant, hv, hg, h1, h2]

/-- Witness for `strategy_quadrant_rule`: in the three-row table the record
for country `"C"` (export 20, growth 5, median 20) is in the `Invest`
quadrant. -/
theorem strategy_quadrant_rule_witness :
    ∃ m : ℚ, median (exportValues (dropWorld rows3)) = some m ∧
      (⟨"C", some 20, some 5, some 3, "Invest"⟩ : MarketRecord).strategy =
        if (20:ℚ) ≥ m ∧ (5:ℚ) ≥ 0 then "Invest"
        else if (20:ℚ) < m ∧ (5:ℚ) ≥ 0 then "Nurture"
        else if (20:ℚ) ≥ m ∧ (5:ℚ) < 0 then "Defend"
        else "Watch" :=
  strategy_quadrant_rule.1 rows3 ⟨"C", some 20, some 5, some 3, "Invest"⟩
    (by decide) 20 5 rfl rfl

/-- C5: an unparsable `export_value` cell (such as `"N/A"`) is non-fatal: the
load still succeeds, the cell becomes an explicit missing value (not zero),
the row is kept, contributes nothing to the export total, and is classified
`Watch`. -/
theorem unparsable_cell_nonfatal (pre post : List RawRow) (r : RawRow)
    (s : String) (hc : r.country ≠ "World")
    (he : r.export_value = RawCell.text s) :
    load ⟨true, true, true, true, pre ++ r :: post⟩
        = Except.ok ⟨load_rows (pre ++ r :: post)⟩
    ∧ (∃ rec ∈ load_rows (pre ++ r :: post),
        rec.country = r.country ∧ rec.export_value = none
          ∧ rec.export_value ≠ some 0 ∧ rec.strategy = "Watch")
    ∧ (load_rows (pre ++ r :: post)).length = (load_rows (pre ++ post)).length + 1
    ∧ total_exports ⟨load_rows (pre ++ r :: post)⟩
        = total_exports ⟨load_rows (pre ++ post)⟩ := by
  have hkeep : (!(r.country == "World")) = true := by simpa using hc
  have hsplit : dropWorld (pre ++ r :: post) = dropWorld pre ++ r :: dropWorld post := by
    simp [dropWorld, List.filter_append, List.filter_cons, hkeep]
  have hsplit' : dropWorld (pre ++ post) = dropWorld pre ++ dropWorld post := by
    simp [dropWorld, List.filter_append]
  have hevr : to_numeric r.export_value = none := by rw [he]; rfl
  have hev : exportValues (dropWorld (pre ++ r :: post))
      = exportValues (dropWorld (pre ++ post)) := by
    rw [hsplit, hsplit']
    simp [exportValues, List.filterMap_append, List.filterMap_cons, hevr]
  refine ⟨by simp [load, hasAllColumns], ?_, ?_, ?_⟩
  · refine ⟨recordOf (median (exportValues (dropWorld (pre ++ r :: post)))) r,
      ?_, rfl, ?_, ?_, ?_⟩
    · refine mem_load_rows.mpr ⟨r, ?_, rfl⟩
      rw [hsplit]
      exact List.mem_append_right _ (List.mem_cons_self _ _)
    · simp [recordOf, hevr]
    · simp [recordOf, hevr]
    · simp only [recordOf]
      rw [hevr, classify_ev_none]
  · simp only [load_rows, List.length_map]
    rw [hsplit, hsplit']
    simp only [List.length_append, List.length_cons]
    omega
  · rw [total_exports_load, total_exports_load, hev]

/-- Witness for `unparsable_cell_nonfatal` at the one-row `"N/A"` table. -/
theorem unparsable_cell_nonfatal_witness :
    load ⟨true, true, true, true, [] ++ naRow :: []⟩
        = Except.ok ⟨load_rows ([] ++ naRow :: [])⟩
    ∧ (∃ rec ∈ load_rows ([] ++ naRow :: []),
        rec.country = naRow.country ∧ rec.export_value = none
          ∧ rec.export_value ≠ some 0 ∧ rec.strategy = "Watch")
    ∧ (load_rows ([] ++ naRow :: [])).length = (load_rows ([] ++ [])).length + 1
    ∧ total_exports ⟨load_rows ([] ++ naRow :: [])⟩
        = total_exports ⟨load_rows ([] ++ [])⟩ :=
  unparsable_cell_nonfatal [] [] naRow "N/A" (by decide) rfl

/-- C7: the four-row demo input (export values 10, 20, 30, 40, growths
1, −1, 2, −2, median 25) is classified Nurture, Watch, Invest, Defend. -/
theorem median_split_demo :
    (load_rows demoRows).map (fun rec => (rec.country, rec.strategy))
      = [("A", "Nurture"), ("B", "Watch"), ("C", "Invest"), ("D", "Defend")] := by
  have hdw : dropWorld demoRows = demoRows := rfl
  have hev : exportValues demoRows = [10, 20, 30, 40] := rfl
  have hmed : median (exportValues (dropWorld demoRows)) = some 25 := by
    rw [hdw, hev]
    norm_num [median, List.insertionSort, List.orderedInsert]
  simp only [load_rows]
  rw [hmed, hdw]
  norm_num [demoRows, recordOf, classify, nanGe, nanLt, to_numeric]

/-- C9: a table whose data rows are all the world aggregate, or whose numeric
cells are all unparsable, still loads without error: the Dataset is empty in
the first case, and in the second the median is missing and every record is
missing-valued and labelled `Watch`. -/
theorem degenerate_input_safe (t : RawTable) (h : hasAllColumns t = true) :
    load t = Except.ok ⟨load_rows t.rows⟩
    ∧ ((∀ r ∈ t.rows, r.country = "World") → load t = Except.ok ⟨[]⟩)
    ∧ ((∀ r ∈ t.rows, to_numeric r.export_value = none) →
        median (exportValues (dropWorld t.rows)) = none
          ∧ ∀ rec ∈ load_rows t.rows,
              rec.export_value = none ∧ rec.strategy = "Watch") := by
  have hload : load t = Except.ok ⟨load_rows t.rows⟩ := by simp [load, h]
  refine ⟨hload, ?_, ?_⟩
  · intro hall
    have hkept : dropWorld t.rows = [] := by
      refine List.filter_eq_nil_iff.mpr ?_
      intro r hr
      simp [hall r hr]
    rw [hload]
    simp [load_rows, hkept]
  · intro hall
    have hev : exportValues (dropWorld t.rows) = [] := by
      refine List.filterMap_eq_nil_iff.mpr ?_
      intro r hr
      exact hall r (List.mem_of_mem_filter hr)
    refine ⟨by rw [hev]; rfl, ?_⟩
    intro rec hmem
    rcases mem_load_rows.mp hmem with ⟨r, hr, rfl⟩
    have hr' : to_numeric r.export_value = none :=
      hall r (List.mem_of_mem_filter hr)
    constructor
    · simpa [recordOf] using hr'
    · simp only [recordOf]
      rw [hr', classify_ev_none]

/-- Witness for `degenerate_input_safe`: the table whose only data row is the
world aggregate loads to the empty Dataset. -/
theorem degenerate_input_safe_witness :
    load ⟨true, true, true, true, [worldRow]⟩ = Except.ok ⟨[]⟩ :=
  (degenerate_input_safe ⟨true, true, true, true, [worldRow]⟩ rfl).2.1 (by decide)

/-- C10: the strategy labels are independent of the `world_rank` column: two
inputs identical except in their `world_rank` cells classify row-for-row
identically. -/
theorem strategy_world_rank_noninterference (rows₁ rows₂ : List RawRow)
    (h : List.Forall₂ AgreeExceptRank rows₁ rows₂) :
    (load_rows rows₁).map (fun rec => rec.strategy)
      = (load_rows rows₂).map (fun rec => rec.strategy) := by
  have hkept := dropWorld_forall₂ h
  have hev : exportValues (dropWorld rows₁) = exportValues (dropWorld rows₂) :=
    exportValues_forall₂ hkept
  simp only [load_rows, List.map_map]
  rw [hev]
  exact map_strategy_forall₂ _ hkept

/-- Witness for `strategy_world_rank_noninterference`: the demo table and its
rank-scrambled variant (one rank even unparsable) classify identically. -/
theorem strategy_world_rank_noninterference_witness :
    (load_rows demoRows).map (fun rec => rec.strategy)
      = (load_rows demoRowsRankScrambled).map (fun rec => rec.strategy) :=
  strategy_world_rank_noninterference demoRows demoRowsRankScrambled
    (.cons ⟨rfl, rfl, rfl⟩ (.cons ⟨rfl, rfl, rfl⟩
      (.cons ⟨rfl, rfl, rfl⟩ (.cons ⟨rfl, rfl, rfl⟩ .nil))))

end Claims

end TradeDash
